import Mathlib

/-!
Verification of the olympus repository core against its specification.

The repository has two Python services:
* `src/lib/apis/rag.py` — a FastAPI document ("RAG") store: collections of
  (content, embedding) rows, file ingestion with overlapping chunking, and
  top-k cosine-similarity queries (pgvector `<=>`).
* `src/lib/apis/history_backend.py` — a Flask chat-history store with
  conversation/message CRUD, bulk delete, and pgvector similarity search.

This file shallowly embeds the functions named by the claims: Python strings
become `List Char`, machine integers become `Int`/`Nat`, database tables
become Lean lists, a transaction is explicit state passing (the committed
state is only replaced when the code path reaches `commit()`; an exception
before commit leaves the committed state unchanged, which is what closing a
connection without committing does), and the external embedding model and
SQL insert are fallible function parameters returning `Except`.
-/

namespace Olympus

/-- Structured error mirroring FastAPI `HTTPException(status_code, detail)` and
Flask `json_error(message, status)`. -/
structure ApiError where
  status : Nat
  detail : String
deriving DecidableEq

/-! ## Text chunker (rag.py, `ingest_file`, lines 306-331) -/

/-- Python `str.strip()` on a list of characters: drop trailing whitespace
(via double reverse) and then leading whitespace. -/
def pyStrip (l : List Char) : List Char :=
  ((l.reverse.dropWhile Char.isWhitespace).reverse).dropWhile Char.isWhitespace

/-- `text_data.replace("\r", " ").strip()` — rag.py line 306. -/
def cleanText (raw : List Char) : List Char :=
  pyStrip (raw.map (fun c => if c = '\r' then ' ' else c))

/-- Parameter substitution for `chunk_size` — rag.py lines 311-312:
`if chunk_size <= 0: chunk_size = 800`. -/
def substChunkSize (chunk_size : Int) : Nat :=
  if chunk_size ≤ 0 then 800 else chunk_size.toNat

/-- Parameter substitution for `overlap` — rag.py lines 313-316:
`if overlap < 0: overlap = 0` then
`if overlap >= chunk_size: overlap = max(0, chunk_size // 4)` (the comparison
uses the already substituted `chunk_size`, which is positive, so the outer
`max 0` is the identity). -/
def substOverlap (chunk_size overlap : Int) : Nat :=
  if (substChunkSize chunk_size : Int) ≤ (if overlap < 0 then 0 else overlap) then
    substChunkSize chunk_size / 4
  else (if overlap < 0 then 0 else overlap).toNat

/-- The chunking `while` loop — rag.py lines 318-328 — as a fuel-indexed
recursion (the Python loop has no fuel; running out of fuel returns `none`,
and the termination theorem shows `cleaned.length + 1` fuel never does).
Each iteration takes the window `cleaned[start:end]` with
`end = min(length, start + chunk_size)`, strips it, keeps it if non-empty,
breaks when `end >= length`, else advances to `start = end - overlap`. -/
def chunkFuel (cleaned : List Char) (cs ov : Nat) : Nat → Nat → Option (List (List Char))
  | 0, _ => none
  | fuel + 1, start =>
    if start < cleaned.length then
      let e := min cleaned.length (start + cs)
      let ck := pyStrip ((cleaned.drop start).take (e - start))
      match (if e < cleaned.length then chunkFuel cleaned cs ov fuel (e - ov) else some []) with
      | none => none
      | some rest => some (if ck = [] then rest else ck :: rest)
    else some []

/-- The same loop, recording the window `(start, end)` of every iteration
instead of the stripped window contents.  One span per loop iteration. -/
def windowSpans (cleaned : List Char) (cs ov : Nat) : Nat → Nat → Option (List (Nat × Nat))
  | 0, _ => none
  | fuel + 1, start =>
    if start < cleaned.length then
      let e := min cleaned.length (start + cs)
      match (if e < cleaned.length then windowSpans cleaned cs ov fuel (e - ov) else some []) with
      | none => none
      | some rest => some ((start, e) :: rest)
    else some []

/-- What one loop iteration emits from the window `(s, e)`: the stripped
slice if non-empty, nothing otherwise. -/
def spanChunk (cleaned : List Char) (se : Nat × Nat) : Option (List Char) :=
  let ck := pyStrip ((cleaned.drop se.1).take (se.2 - se.1))
  if ck = [] then none else some ck

/-- The chunking phase of `ingest_file` (rag.py lines 306-331): clean the
decoded text, reject empty input (400), substitute the parameters, run the
loop, reject an empty chunk list (400).  The 500 branch is unreachable: the
termination theorem shows the fuel `cleaned.length + 1` always suffices. -/
def ingest_chunks (raw : List Char) (chunk_size overlap : Int) :
    Except ApiError (List (List Char)) :=
  let cleaned := cleanText raw
  if cleaned = [] then
    .error ⟨400, "File appears to be empty or unreadable."⟩
  else
    match chunkFuel cleaned (substChunkSize chunk_size) (substOverlap chunk_size overlap)
        (cleaned.length + 1) 0 with
    | none => .error ⟨500, "chunking loop failed to terminate"⟩
    | some [] => .error ⟨400, "No valid chunks produced from file content."⟩
    | some l => .ok l

/-- Formalisation of the spec sentence "the produced chunks, when the overlap
is subtracted, cover the original text start-to-end with no gaps", read about
the chunk contents: dropping `ov` characters from every chunk after the first
and concatenating must rebuild the cleaned text. -/
def chunksReassemble (cleaned : List Char) (ov : Nat) (chunks : List (List Char)) : Bool :=
  match chunks with
  | [] => cleaned = []
  | c0 :: rest => c0 ++ (rest.map (List.drop ov)).flatten = cleaned

/-! ## Vector similarity

pgvector's `<=>` is cosine distance.  Embeddings live in `List ℝ`; the dot
product truncates to the shorter list, matching a componentwise product. -/

/-- Dot product of two vectors. -/
def dotL (u v : List ℝ) : ℝ := (List.zipWith (fun a b => a * b) u v).sum

/-- Euclidean norm. -/
noncomputable def norm2 (v : List ℝ) : ℝ := Real.sqrt (dotL v v)

/-- Cosine distance, the semantics of pgvector's `<=>` operator used by both
similarity queries (history_backend.py line 547, rag.py line 374):
`1 - cos angle`; the similarity reported to the caller is `1 -` this. -/
noncomputable def cosineDistance (u v : List ℝ) : ℝ :=
  1 - dotL u v / (norm2 u * norm2 v)

/-- Scalar multiple of a vector (used to state "identical in direction"). -/
def smulL (c : ℝ) (v : List ℝ) : List ℝ := v.map (fun x => c * x)

/-! ## Chat-history store (history_backend.py) -/

/-- A row of the `conversations` table. -/
structure Conversation where
  id : Int
  created_at : Int
  title : String

/-- A row of the `chat_messages` table. -/
structure ChatMessage where
  id : Int
  conversation_id : Int
  sender : String
  message : String
  model_name : Option String
  created_at : Int
  embedding : Option (List ℝ)

/-- The chat-history database state. -/
structure HistoryDB where
  conversations : List Conversation
  chat_messages : List ChatMessage

/-- `top_k = max(1, min(top_k, 100))` — history_backend.py line 532. -/
def clampTopK (top_k : Int) : Int := max 1 (min top_k 100)

/-- The candidate set of `similarity_search` (history_backend.py lines
540-554): `WHERE embedding IS NOT NULL`, and `AND conversation_id = %s` only
when the Python value `conv_id` is truthy — so `conversation_id = 0` (like a
missing one) adds no filter. -/
def eligibleRows (store : List ChatMessage) : Option Int → List ChatMessage
  | some cid =>
    if cid ≠ 0 then
      (store.filter (fun m => m.embedding.isSome)).filter (fun m => m.conversation_id == cid)
    else store.filter (fun m => m.embedding.isSome)
  | none => store.filter (fun m => m.embedding.isSome)

noncomputable instance : DecidableRel (fun (a b : ChatMessage × ℝ) => a.2 ≤ b.2) :=
  fun a b => Real.decidableLE a.2 b.2

instance : IsTotal (ChatMessage × ℝ) (fun a b => a.2 ≤ b.2) :=
  ⟨fun a b => le_total a.2 b.2⟩

instance : IsTrans (ChatMessage × ℝ) (fun a b => a.2 ≤ b.2) :=
  ⟨fun _ _ _ h1 h2 => le_trans h1 h2⟩

/-- `similarity_search` (history_backend.py lines 515-564): clamp `top_k`,
keep rows with a non-null embedding, optionally restrict to one conversation,
`ORDER BY embedding <=> query ASC LIMIT top_k`, and report each row with
`1 - (embedding <=> query)` as its similarity. -/
noncomputable def similarity_search (store : List ChatMessage)
    (query_embedding : List ℝ) (top_k : Int) (conversation_id : Option Int) :
    List (ChatMessage × ℝ) :=
  let scored := (eligibleRows store conversation_id).map
    (fun m => (m, cosineDistance (m.embedding.getD []) query_embedding))
  let sorted := List.insertionSort (fun a b => a.2 ≤ b.2) scored
  (sorted.take (clampTopK top_k).toNat).map (fun p => (p.1, 1 - p.2))

/-- `delete_conversation` (history_backend.py lines 276-303), one
transaction: `DELETE FROM chat_messages WHERE conversation_id = %s`, then
`DELETE FROM conversations WHERE id = %s RETURNING id`; if no row came back
the transaction is rolled back (committed state unchanged) and a 404 is
returned, otherwise it is committed. -/
def delete_conversation (db : HistoryDB) (conv_id : Int) :
    HistoryDB × Except ApiError Int :=
  let msgs := db.chat_messages.filter (fun m => m.conversation_id != conv_id)
  let convs := db.conversations.filter (fun c => c.id != conv_id)
  if db.conversations.any (fun c => c.id == conv_id) then
    (⟨convs, msgs⟩, .ok conv_id)
  else
    (db, .error ⟨404, "Conversation not found"⟩)

/-- `list({int(x) for x in ids})` — history_backend.py line 336.  A CPython
set iterates in an unspecified order; for the distinct small ids exercised
here it agrees with first-occurrence order, which is what this models. -/
def pyDedup (ids : List Int) : List Int :=
  ids.foldl (fun acc x => if acc.contains x then acc else acc ++ [x]) []

/-- The per-id loop of `bulk_delete_conversations` (history_backend.py lines
346-356), all inside one transaction: for each id, delete its messages, then
delete the conversation row and classify the id as deleted or not found by
whether `RETURNING id` produced a row. -/
def bulkDeleteLoop :
    HistoryDB → List Int → List Int → List Int → HistoryDB × List Int × List Int
  | st, deletedAcc, missingAcc, [] => (st, deletedAcc, missingAcc)
  | st, deletedAcc, missingAcc, cid :: rest =>
    let st' : HistoryDB :=
      ⟨st.conversations.filter (fun c => c.id != cid),
       st.chat_messages.filter (fun m => m.conversation_id != cid)⟩
    if st.conversations.any (fun c => c.id == cid) then
      bulkDeleteLoop st' (deletedAcc ++ [cid]) missingAcc rest
    else
      bulkDeleteLoop st' deletedAcc (missingAcc ++ [cid]) rest

/-- `bulk_delete_conversations` (history_backend.py lines 306-366): sanitize
the ids, run the deletion loop, commit, and return `(state, deleted,
not_found)`. -/
def bulk_delete_conversations (db : HistoryDB) (ids : List Int) :
    HistoryDB × List Int × List Int :=
  bulkDeleteLoop db [] [] (pyDedup ids)

instance : DecidableRel (fun (a b : ChatMessage) => a.created_at ≤ b.created_at) :=
  fun a b => Int.decLe _ _

/-- `get_conversation_details` (history_backend.py lines 132-194) with the
LIMIT/OFFSET pagination elided: count the `chat_messages` rows of the
conversation, answer 404 `Conversation not found` when the count is zero
(the `conversations` table is never consulted), otherwise return the
messages ordered by `created_at` ascending. -/
def get_conversation_details (db : HistoryDB) (conv_id : Int) :
    Except ApiError (List ChatMessage) :=
  let rows := db.chat_messages.filter (fun m => m.conversation_id == conv_id)
  if rows.length = 0 then .error ⟨404, "Conversation not found"⟩
  else .ok (List.insertionSort (fun a b => a.created_at ≤ b.created_at) rows)

/-! ## RAG document store (rag.py) -/

/-- A row of a per-collection table: `id`, `content`, `embedding` (rows
written by this service always carry an embedding). -/
structure RagDoc where
  id : Int
  content : String
  embedding : List ℝ

/-- `collection_name.lower().replace(" ", "_")` — used by every rag.py
endpoint.  Written as one pass over the characters (lowering a space is a
no-op, so lower-then-replace and this agree). -/
def normalizeName (name : String) : String :=
  String.mk (name.data.map (fun c => if c = ' ' then '_' else c.toLower))

/-- Look a collection's rows up by (normalized) table name. -/
def lookupTable (db : List (String × List RagDoc)) (tbl : String) :
    Option (List RagDoc) :=
  (db.find? (fun p => p.1 == tbl)).map Prod.snd

/-- `update_document` (rag.py lines 154-178): 404 when the table is absent;
encode the new content (a model failure surfaces as a 500 with nothing
written); `UPDATE ... SET content = :content, embedding = :embedding WHERE
id = :id RETURNING id`, committed, then 404 `Document not found.` when no
row matched (the commit of the empty update changed nothing). -/
def update_document (encode : String → Except String (List ℝ))
    (db : List (String × List RagDoc)) (collection_name : String) (doc_id : Int)
    (content : String) :
    Except ApiError (List (String × List RagDoc) × Int) :=
  let tbl := normalizeName collection_name
  match lookupTable db tbl with
  | none => .error ⟨404, "Collection not found."⟩
  | some rows =>
    match encode content with
    | .error e => .error ⟨500, e⟩
    | .ok emb =>
      if rows.any (fun d => d.id == doc_id) then
        .ok (db.map (fun p =>
          if p.1 == tbl then
            (p.1, p.2.map (fun d => if d.id == doc_id then ⟨d.id, content, emb⟩ else d))
          else p), doc_id)
      else .error ⟨404, "Document not found."⟩

noncomputable instance : DecidableRel (fun (a b : RagDoc × ℝ) => b.2 ≤ a.2) :=
  fun a b => Real.decidableLE b.2 a.2

instance : IsTotal (RagDoc × ℝ) (fun a b => b.2 ≤ a.2) :=
  ⟨fun a b => le_total b.2 a.2⟩

instance : IsTrans (RagDoc × ℝ) (fun a b => b.2 ≤ a.2) :=
  ⟨fun _ _ _ h1 h2 => le_trans h2 h1⟩

/-- `query_collection` (rag.py lines 355-381): score every row with
`1 - (embedding <=> query)`, `ORDER BY similarity DESC LIMIT top_k`.  The
`top_k` is passed straight to `LIMIT` — no clamping; Postgres rejects a
negative `LIMIT`, which the endpoint surfaces as a 500, modelled as `none`. -/
noncomputable def query_collection (docs : List RagDoc) (query_embedding : List ℝ)
    (top_k : Int) : Option (List (RagDoc × ℝ)) :=
  if top_k < 0 then none
  else
    let scored := docs.map (fun d => (d, 1 - cosineDistance d.embedding query_embedding))
    some ((List.insertionSort (fun a b => b.2 ≤ a.2) scored).take top_k.toNat)

/-- The per-chunk loop of `ingest_file` (rag.py lines 333-345): for each
chunk, encode it and `INSERT ... RETURNING id`.  `encode` and `insertRow`
are the external model and storage collaborators; either may fail.  The loop
builds the transaction's pending rows; any failure aborts the whole run. -/
def ingestInsertLoop (encode : String → Except String (List ℝ))
    (insertRow : String → List ℝ → Except String Int) :
    List String → Except String (List RagDoc)
  | [] => .ok []
  | ch :: rest =>
    match encode ch with
    | .error e => .error e
    | .ok emb =>
      match insertRow ch emb with
      | .error e => .error e
      | .ok new_id =>
        match ingestInsertLoop encode insertRow rest with
        | .error e => .error e
        | .ok ds => .ok (⟨new_id, ch, emb⟩ :: ds)

/-- The transactional wrapper of that loop: `connection.commit()` runs only
after every chunk succeeded (rag.py line 345); an exception propagates out
of the `with engine.connect()` block, which closes the connection without
committing, rolling every pending insert back.  Returns the committed table
and the surfaced error, if any. -/
def ingest_file_insert (encode : String → Except String (List ℝ))
    (insertRow : String → List ℝ → Except String Int)
    (table : List RagDoc) (chunks : List String) :
    List RagDoc × Option String :=
  match ingestInsertLoop encode insertRow chunks with
  | .ok newRows => (table ++ newRows, none)
  | .error e => (table, some e)

/-! ## Lemmas about the chunker -/

theorem pyStrip_eq_nil (l : List Char) (h : pyStrip l = []) :
    ∀ a ∈ l, a.isWhitespace := by
  intro a ha
  unfold pyStrip at h
  rw [List.dropWhile_eq_nil_iff] at h
  have ha' : a ∈ l.reverse := List.mem_reverse.2 ha
  rw [← List.takeWhile_append_dropWhile (p := Char.isWhitespace) (l := l.reverse)] at ha'
  rcases List.mem_append.1 ha' with hta | hda
  · exact List.mem_takeWhile_imp hta
  · exact h a (List.mem_reverse.2 hda)

theorem pyStrip_ne_nil_of_mem (l : List Char) (a : Char) (ha : a ∈ l)
    (hws : a.isWhitespace = false) : pyStrip l ≠ [] := by
  intro h
  have := pyStrip_eq_nil l h a ha
  simp [hws] at this

theorem head?_dropWhile_false (p : Char → Bool) :
    ∀ (l : List Char) (c : Char), (l.dropWhile p).head? = some c → p c = false
  | [], c, h => by simp [List.dropWhile] at h
  | a :: t, c, h => by
    by_cases hp : p a
    · rw [List.dropWhile_cons_of_pos hp] at h
      exact head?_dropWhile_false p t c h
    · rw [List.dropWhile_cons_of_neg hp] at h
      simp only [List.head?_cons, Option.some_inj] at h
      subst h
      exact Bool.of_not_eq_true hp

/-- The first character of a cleaned text is never whitespace. -/
theorem cleanText_head_not_ws (raw : List Char) (c : Char)
    (h : (cleanText raw).head? = some c) : c.isWhitespace = false := by
  unfold cleanText pyStrip at h
  exact head?_dropWhile_false _ _ _ h

theorem one_le_substChunkSize (chunk_size : Int) : 1 ≤ substChunkSize chunk_size := by
  unfold substChunkSize
  split <;> omega

theorem substOverlap_lt (chunk_size overlap : Int) :
    substOverlap chunk_size overlap < substChunkSize chunk_size := by
  have h1 := one_le_substChunkSize chunk_size
  unfold substOverlap
  by_cases hneg : overlap < 0
  · simp only [if_pos hneg]
    split
    · exact Nat.div_lt_self (by omega) (by omega)
    · omega
  · simp only [if_neg hneg]
    split
    · exact Nat.div_lt_self (by omega) (by omega)
    · rename_i h
      omega

theorem windowSpans_isSome (cleaned : List Char) (cs ov : Nat) (hov : ov < cs) :
    ∀ (fuel start : Nat), cleaned.length - start < fuel →
      ∃ spans, windowSpans cleaned cs ov fuel start = some spans := by
  intro fuel
  induction fuel with
  | zero => omega
  | succ n ih =>
    intro start hfuel
    by_cases hs : start < cleaned.length
    · by_cases he : min cleaned.length (start + cs) < cleaned.length
      · have he' : min cleaned.length (start + cs) = start + cs := by omega
        obtain ⟨rest, hrest⟩ := ih (min cleaned.length (start + cs) - ov) (by omega)
        refine ⟨(start, min cleaned.length (start + cs)) :: rest, ?_⟩
        simp only [windowSpans, if_pos hs, if_pos he, hrest]
      · refine ⟨[(start, min cleaned.length (start + cs))], ?_⟩
        simp only [windowSpans, if_pos hs, if_neg he]
    · exact ⟨[], by simp only [windowSpans, if_neg hs]⟩

/-- Each chunk the loop emits is the stripped, non-empty content of the
corresponding window. -/
theorem chunkFuel_eq_windowSpans (cleaned : List Char) (cs ov : Nat) :
    ∀ (fuel start : Nat),
      chunkFuel cleaned cs ov fuel start =
        (windowSpans cleaned cs ov fuel start).map
          (fun spans => spans.filterMap (spanChunk cleaned)) := by
  intro fuel
  induction fuel with
  | zero => intro start; rfl
  | succ n ih =>
    intro start
    by_cases hs : start < cleaned.length
    · by_cases he : min cleaned.length (start + cs) < cleaned.length
      · cases hw : windowSpans cleaned cs ov n (min cleaned.length (start + cs) - ov) with
        | none =>
          have hc : chunkFuel cleaned cs ov n (min cleaned.length (start + cs) - ov) = none := by
            rw [ih, hw]; rfl
          simp only [chunkFuel, windowSpans, if_pos hs, if_pos he, hw, hc]
          rfl
        | some rest =>
          have hc : chunkFuel cleaned cs ov n (min cleaned.length (start + cs) - ov) =
              some (rest.filterMap (spanChunk cleaned)) := by
            rw [ih, hw]; rfl
          simp only [chunkFuel, windowSpans, if_pos hs, if_pos he, hw, hc, Option.map_some',
            List.filterMap_cons]
          split <;> rename_i hck <;> simp [spanChunk, hck]
      · simp only [chunkFuel, windowSpans, if_pos hs, if_neg he, Option.map_some',
          List.filterMap_cons]
        split <;> rename_i hck <;> simp [spanChunk, hck]
    · simp only [chunkFuel, windowSpans, if_neg hs]
      rfl

theorem chunkFuel_isSome (cleaned : List Char) (cs ov : Nat) (hov : ov < cs)
    (fuel start : Nat) (hfuel : cleaned.length - start < fuel) :
    ∃ l, chunkFuel cleaned cs ov fuel start = some l := by
  obtain ⟨spans, hspans⟩ := windowSpans_isSome cleaned cs ov hov fuel start hfuel
  exact ⟨_, by rw [chunkFuel_eq_windowSpans, hspans]; rfl⟩

theorem chunkFuel_mem_ne_nil (cleaned : List Char) (cs ov : Nat) :
    ∀ (fuel start : Nat) (l : List (List Char)),
      chunkFuel cleaned cs ov fuel start = some l → ∀ ch ∈ l, ch ≠ [] := by
  intro fuel
  induction fuel with
  | zero => intro start l h; exact absurd h (by simp [chunkFuel])
  | succ n ih =>
    intro start l h ch hch
    by_cases hs : start < cleaned.length
    · simp only [chunkFuel, if_pos hs] at h
      rcases hrec : (if min cleaned.length (start + cs) < cleaned.length then
          chunkFuel cleaned cs ov n (min cleaned.length (start + cs) - ov) else some []) with
        _ | rest
      · rw [hrec] at h; exact absurd h (by simp)
      · rw [hrec] at h
        simp only [Option.some_inj] at h
        subst h
        by_cases hck : pyStrip ((cleaned.drop start).take
            (min cleaned.length (start + cs) - start)) = []
        · rw [if_pos hck] at hch
          by_cases he : min cleaned.length (start + cs) < cleaned.length
          · rw [if_pos he] at hrec; exact ih _ _ hrec ch hch
          · rw [if_neg he] at hrec
            simp only [Option.some_inj] at hrec
            subst hrec; simp at hch
        · rw [if_neg hck] at hch
          rcases List.mem_cons.1 hch with h1 | h1
          · subst h1; exact hck
          · by_cases he : min cleaned.length (start + cs) < cleaned.length
            · rw [if_pos he] at hrec; exact ih _ _ hrec ch h1
            · rw [if_neg he] at hrec
              simp only [Option.some_inj] at hrec
              subst hrec; simp at h1
    · simp only [chunkFuel, if_neg hs, Option.some_inj] at h
      subst h; simp at hch

/-- Structure of the loop's windows: head window, the `end = min(length,
start + chunk_size)` shape of every window, adjacency of consecutive windows
(`next start = end - overlap`), the last window reaching the end of the
text, and gap-free coverage of every position from `start` on. -/
theorem windowSpans_props (cleaned : List Char) (cs ov : Nat) :
    ∀ (fuel start : Nat) (spans : List (Nat × Nat)),
      windowSpans cleaned cs ov fuel start = some spans →
      start < cleaned.length →
      spans.head? = some (start, min cleaned.length (start + cs)) ∧
      (∀ se ∈ spans, se.2 = min cleaned.length (se.1 + cs)) ∧
      List.Chain' (fun a b => b.1 = a.2 - ov) spans ∧
      (∃ s, spans.getLast? = some (s, cleaned.length)) ∧
      (∀ p, start ≤ p → p < cleaned.length → ∃ se ∈ spans, se.1 ≤ p ∧ p < se.2) := by
  intro fuel
  induction fuel with
  | zero => intro start spans h; simp [windowSpans] at h
  | succ n ih =>
    intro start spans h hs
    simp only [windowSpans, if_pos hs] at h
    by_cases he : min cleaned.length (start + cs) < cleaned.length
    · rw [if_pos he] at h
      cases hw : windowSpans cleaned cs ov n (min cleaned.length (start + cs) - ov) with
      | none => rw [hw] at h; exact absurd h (by simp)
      | some rest =>
        rw [hw] at h
        simp only [Option.some_inj] at h
        subst h
        have hs' : min cleaned.length (start + cs) - ov < cleaned.length := by omega
        obtain ⟨ihhead, ihall, ihchain, ihlast, ihcov⟩ := ih _ rest hw hs'
        refine ⟨rfl, ?_, ?_, ?_, ?_⟩
        · intro se hse
          rcases List.mem_cons.1 hse with h1 | h1
          · subst h1; rfl
          · exact ihall se h1
        · rw [List.chain'_cons']
          refine ⟨?_, ihchain⟩
          intro y hy
          rw [ihhead] at hy
          simp only [Option.mem_def, Option.some_inj] at hy
          subst hy
          rfl
        · obtain ⟨s, hlast⟩ := ihlast
          cases rest with
          | nil => simp at ihhead
          | cons r rs => exact ⟨s, by rw [List.getLast?_cons_cons]; exact hlast⟩
        · intro p hp1 hp2
          by_cases hpe : p < min cleaned.length (start + cs)
          · exact ⟨(start, min cleaned.length (start + cs)),
              List.mem_cons_self _ _, hp1, hpe⟩
          · obtain ⟨se, hmem, h1, h2⟩ := ihcov p (by omega) hp2
            exact ⟨se, List.mem_cons_of_mem _ hmem, h1, h2⟩
    · rw [if_neg he] at h
      simp only [Option.some_inj] at h
      subst h
      have hee : min cleaned.length (start + cs) = cleaned.length := by omega
      refine ⟨rfl, ?_, ?_, ?_, ?_⟩
      · intro se hse
        rcases List.mem_cons.1 hse with h1 | h1
        · subst h1; rfl
        · simp at h1
      · simp
      · exact ⟨start, by simp [hee]⟩
      · intro p hp1 hp2
        exact ⟨(start, min cleaned.length (start + cs)), by simp, hp1, by omega⟩

/-- Iteration count: each iteration advances by `cs - ov`, so the loop from
`start` runs at most `ceil((length - start) / (cs - ov))` times, stated
multiplicatively. -/
theorem windowSpans_length_le (cleaned : List Char) (cs ov : Nat) (hov : ov < cs) :
    ∀ (fuel start : Nat) (spans : List (Nat × Nat)),
      windowSpans cleaned cs ov fuel start = some spans →
      start < cleaned.length →
      spans.length * (cs - ov) ≤ cleaned.length - start + (cs - ov) - 1 := by
  intro fuel
  induction fuel with
  | zero => intro start spans h; simp [windowSpans] at h
  | succ n ih =>
    intro start spans h hs
    simp only [windowSpans, if_pos hs] at h
    by_cases he : min cleaned.length (start + cs) < cleaned.length
    · rw [if_pos he] at h
      cases hw : windowSpans cleaned cs ov n (min cleaned.length (start + cs) - ov) with
      | none => rw [hw] at h; exact absurd h (by simp)
      | some rest =>
        rw [hw] at h
        simp only [Option.some_inj] at h
        subst h
        have hcs : start + cs < cleaned.length := by omega
        have hb := ih _ rest hw (by omega)
        have hmin : min cleaned.length (start + cs) = start + cs := by omega
        rw [hmin] at hb
        simp only [List.length_cons, Nat.succ_mul]
        generalize hm : rest.length * (cs - ov) = m at hb ⊢
        omega
    · rw [if_neg he] at h
      simp only [Option.some_inj] at h
      subst h
      simp only [List.length_singleton, Nat.one_mul]
      omega

/-- C1: for every raw text whose cleaned form is non-empty and any integer
`chunk_size` and `overlap`, the parameter substitutions leave the effective
overlap strictly below the effective chunk size (so each iteration advances
the window start by at least 1), the chunking loop terminates within
`length + 1` iterations, it emits at least one chunk with every emitted
chunk non-empty, and `ingest_file`'s chunking phase succeeds with exactly
those chunks instead of reaching the no-chunks error. -/
theorem chunking_terminates_and_produces (raw : List Char) (chunk_size overlap : Int)
    (hne : cleanText raw ≠ []) :
    substOverlap chunk_size overlap < substChunkSize chunk_size ∧
    ∃ l, chunkFuel (cleanText raw) (substChunkSize chunk_size)
          (substOverlap chunk_size overlap) ((cleanText raw).length + 1) 0 = some l ∧
        l ≠ [] ∧ (∀ ch ∈ l, ch ≠ []) ∧
        ingest_chunks raw chunk_size overlap = .ok l := by
  refine ⟨substOverlap_lt chunk_size overlap, ?_⟩
  obtain ⟨l, hl⟩ := chunkFuel_isSome (cleanText raw) _ _ (substOverlap_lt chunk_size overlap)
    ((cleanText raw).length + 1) 0 (by omega)
  have hpos : 0 < (cleanText raw).length := List.length_pos.2 hne
  have hlne : l ≠ [] := by
    cases hhd : (cleanText raw).head? with
    | none => exact absurd (List.head?_eq_none_iff.1 hhd) hne
    | some c =>
      have hcw : c.isWhitespace = false := cleanText_head_not_ws raw c hhd
      have hck : pyStrip (((cleanText raw).drop 0).take
          (min (cleanText raw).length (0 + substChunkSize chunk_size) - 0)) ≠ [] := by
        apply pyStrip_ne_nil_of_mem _ c _ hcw
        have h1 : 1 ≤ min (cleanText raw).length (0 + substChunkSize chunk_size) - 0 := by
          have := one_le_substChunkSize chunk_size
          omega
        cases hcl : cleanText raw with
        | nil => exact absurd hcl hne
        | cons a t =>
          rw [hcl] at hhd
          simp only [List.head?_cons, Option.some_inj] at hhd
          subst hhd
          rw [hcl] at h1
          simp only [List.drop_zero]
          cases hn : min (a :: t).length (0 + substChunkSize chunk_size) - 0 with
          | zero => omega
          | succ k => simp [List.take_succ_cons]
      simp only [chunkFuel, if_pos hpos] at hl
      rcases hrec : (if min (cleanText raw).length (0 + substChunkSize chunk_size) <
            (cleanText raw).length then
          chunkFuel (cleanText raw) (substChunkSize chunk_size)
            (substOverlap chunk_size overlap) (cleanText raw).length
            (min (cleanText raw).length (0 + substChunkSize chunk_size) -
              substOverlap chunk_size overlap)
        else some []) with _ | rest
      · rw [hrec] at hl; exact absurd hl (by simp)
      · rw [hrec] at hl
        simp only [Option.some_inj] at hl
        rw [if_neg hck] at hl
        subst hl
        simp
  refine ⟨l, hl, hlne, chunkFuel_mem_ne_nil _ _ _ _ _ _ hl, ?_⟩
  unfold ingest_chunks
  rw [if_neg hne, hl]
  cases l with
  | nil => exact absurd rfl hlne
  | cons a t => rfl

/-- Witness for C1 at the concrete input "hi" with `chunk_size = 3`,
`overlap = 1`. -/
theorem chunking_terminates_and_produces_witness :
    cleanText "hi".toList ≠ [] ∧
    (substOverlap 3 1 < substChunkSize 3 ∧
      ∃ l, chunkFuel (cleanText "hi".toList) (substChunkSize 3) (substOverlap 3 1)
            ((cleanText "hi".toList).length + 1) 0 = some l ∧
          l ≠ [] ∧ (∀ ch ∈ l, ch ≠ []) ∧
          ingest_chunks "hi".toList 3 1 = .ok l) :=
  ⟨by decide, chunking_terminates_and_produces "hi".toList 3 1 (by decide)⟩

/-- C2 (amended): for every input with non-empty cleaned text and any
integer parameters, the loop's windows cover the cleaned text start-to-end
with no gaps — the first window starts at 0, every window ends at
`min(length, start + chunk_size)`, each next window starts exactly
`overlap` before the previous end, the last window ends at `length`, and
every position lies in some window; the emitted chunks are exactly the
windows' whitespace-stripped contents with empty results dropped (so the
chunk strings themselves need not reassemble the text, see the
counterexample); and the loop runs at most
`ceil(length / (chunk_size - overlap))` iterations (one window per
iteration). -/
theorem chunk_windows_cover (raw : List Char) (chunk_size overlap : Int)
    (hne : cleanText raw ≠ []) :
    ∃ spans,
      windowSpans (cleanText raw) (substChunkSize chunk_size)
          (substOverlap chunk_size overlap) ((cleanText raw).length + 1) 0 = some spans ∧
      spans.head? = some (0, min (cleanText raw).length (substChunkSize chunk_size)) ∧
      (∀ se ∈ spans, se.2 = min (cleanText raw).length (se.1 + substChunkSize chunk_size)) ∧
      List.Chain' (fun a b => b.1 = a.2 - substOverlap chunk_size overlap) spans ∧
      (∃ s, spans.getLast? = some (s, (cleanText raw).length)) ∧
      (∀ p, p < (cleanText raw).length → ∃ se ∈ spans, se.1 ≤ p ∧ p < se.2) ∧
      chunkFuel (cleanText raw) (substChunkSize chunk_size) (substOverlap chunk_size overlap)
          ((cleanText raw).length + 1) 0 = some (spans.filterMap (spanChunk (cleanText raw))) ∧
      spans.length ≤ ((cleanText raw).length + (substChunkSize chunk_size -
          substOverlap chunk_size overlap) - 1) /
        (substChunkSize chunk_size - substOverlap chunk_size overlap) := by
  have hov := substOverlap_lt chunk_size overlap
  have hpos : 0 < (cleanText raw).length := List.length_pos.2 hne
  obtain ⟨spans, hsp⟩ := windowSpans_isSome (cleanText raw) _ _ hov
    ((cleanText raw).length + 1) 0 (by omega)
  obtain ⟨hhead, hall, hchain, hlast, hcov⟩ := windowSpans_props _ _ _ _ _ _ hsp hpos
  have hb := windowSpans_length_le _ _ _ hov _ _ _ hsp hpos
  refine ⟨spans, hsp, ?_, hall, hchain, hlast, fun p hp => hcov p (Nat.zero_le p) hp, ?_, ?_⟩
  · simpa using hhead
  · rw [chunkFuel_eq_windowSpans, hsp]
    rfl
  · rw [Nat.le_div_iff_mul_le (by omega)]
    generalize spans.length *
      (substChunkSize chunk_size - substOverlap chunk_size overlap) = m at hb ⊢
    omega

/-- Witness for C2 at the concrete input "a b c" with `chunk_size = 3`,
`overlap = 1`. -/
theorem chunk_windows_cover_witness :
    cleanText "a b c".toList ≠ [] ∧
    ∃ spans,
      windowSpans (cleanText "a b c".toList) (substChunkSize 3)
          (substOverlap 3 1) ((cleanText "a b c".toList).length + 1) 0 = some spans ∧
      spans.head? = some (0, min (cleanText "a b c".toList).length (substChunkSize 3)) ∧
      (∀ se ∈ spans, se.2 = min (cleanText "a b c".toList).length (se.1 + substChunkSize 3)) ∧
      List.Chain' (fun a b => b.1 = a.2 - substOverlap 3 1) spans ∧
      (∃ s, spans.getLast? = some (s, (cleanText "a b c".toList).length)) ∧
      (∀ p, p < (cleanText "a b c".toList).length → ∃ se ∈ spans, se.1 ≤ p ∧ p < se.2) ∧
      chunkFuel (cleanText "a b c".toList) (substChunkSize 3) (substOverlap 3 1)
          ((cleanText "a b c".toList).length + 1) 0 =
        some (spans.filterMap (spanChunk (cleanText "a b c".toList))) ∧
      spans.length ≤ ((cleanText "a b c".toList).length + (substChunkSize 3 -
          substOverlap 3 1) - 1) / (substChunkSize 3 - substOverlap 3 1) :=
  ⟨by decide, chunk_windows_cover "a b c".toList 3 1 (by decide)⟩

/-- C2 counterexample for the claim as stated: with `chunk_size = 2`,
`overlap = 0` on the input "a b", the code emits the chunks ["a", "b"]
(each window is stripped of whitespace, and the all-whitespace window is
dropped), and their concatenation (overlap removed) is "ab", which is not
the cleaned text "a b": the produced chunk contents do not cover the text. -/
theorem chunk_contents_do_not_reassemble :
    ingest_chunks "a b".toList 2 0 = .ok [['a'], ['b']] ∧
    chunksReassemble (cleanText "a b".toList) (substOverlap 2 0) [['a'], ['b']] = false := by
  exact ⟨rfl, rfl⟩

/-! ## Lemmas about the vector arithmetic -/

theorem dotL_nil_right : ∀ u : List ℝ, dotL u [] = 0 := by
  intro u; cases u <;> rfl

theorem dotL_cons (a b : ℝ) (u v : List ℝ) :
    dotL (a :: u) (b :: v) = a * b + dotL u v := by
  simp [dotL]

theorem dotL_self_nonneg : ∀ v : List ℝ, 0 ≤ dotL v v
  | [] => le_refl 0
  | a :: t => by
    rw [dotL_cons]
    exact add_nonneg (mul_self_nonneg a) (dotL_self_nonneg t)

/-- Cauchy-Schwarz for the truncating list dot product. -/
theorem dotL_sq_le : ∀ u v : List ℝ, dotL u v ^ 2 ≤ dotL u u * dotL v v
  | [], v => by simp [dotL]
  | a :: u, [] => by
    rw [dotL_nil_right, dotL_nil_right]
    simp [dotL]
  | a :: u, b :: v => by
    have ih := dotL_sq_le u v
    have hU := dotL_self_nonneg u
    have hV := dotL_self_nonneg v
    rw [dotL_cons, dotL_cons, dotL_cons]
    rcases eq_or_lt_of_le hV with hV0 | hVpos
    · have hd2 : dotL u v ^ 2 = 0 := by
        have h1 : dotL u v ^ 2 ≤ 0 := by nlinarith
        nlinarith [sq_nonneg (dotL u v)]
      have hd : dotL u v = 0 :=
        (pow_eq_zero_iff (by norm_num : (2 : ℕ) ≠ 0)).1 hd2
      rw [hd, ← hV0]
      nlinarith [mul_nonneg hU (mul_self_nonneg b)]
    · nlinarith [sq_nonneg (a * dotL v v - b * dotL u v),
        mul_nonneg (mul_self_nonneg b) (sub_nonneg.2 ih), hVpos,
        mul_pos hVpos hVpos]

theorem dotL_smul_left : ∀ (c : ℝ) (u v : List ℝ), dotL (smulL c u) v = c * dotL u v
  | c, [], v => by simp [dotL, smulL]
  | c, a :: u, [] => by
    simp only [smulL, List.map_cons]
    rw [dotL_nil_right, dotL_nil_right]
    ring
  | c, a :: u, b :: v => by
    have ih := dotL_smul_left c u v
    simp only [smulL, List.map_cons]
    rw [dotL_cons, dotL_cons]
    have hmap : List.map (fun x => c * x) u = smulL c u := rfl
    rw [hmap, ih]
    ring

theorem dotL_smul_right : ∀ (c : ℝ) (u v : List ℝ), dotL u (smulL c v) = c * dotL u v
  | c, [], v => by simp [dotL, smulL]
  | c, a :: u, [] => by
    simp only [smulL, List.map_nil]
    rw [dotL_nil_right]
    ring
  | c, a :: u, b :: v => by
    have ih := dotL_smul_right c u v
    simp only [smulL, List.map_cons]
    rw [dotL_cons, dotL_cons]
    have hmap : List.map (fun x => c * x) v = smulL c v := rfl
    rw [hmap, ih]
    ring

theorem abs_dotL_le (u v : List ℝ) : |dotL u v| ≤ norm2 u * norm2 v := by
  have h := Real.sqrt_le_sqrt (dotL_sq_le u v)
  rw [Real.sqrt_sq_eq_abs, Real.sqrt_mul (dotL_self_nonneg u)] at h
  exact h

/-- The cosine distance is never negative, so the reported similarity
`1 - distance` never exceeds 1 (a zero norm makes the real-valued model
return distance 1 by the `x / 0 = 0` convention). -/
theorem cosineDistance_nonneg (u v : List ℝ) : 0 ≤ cosineDistance u v := by
  unfold cosineDistance
  rcases eq_or_lt_of_le (mul_nonneg (Real.sqrt_nonneg (dotL u u))
      (Real.sqrt_nonneg (dotL v v)) : (0 : ℝ) ≤ norm2 u * norm2 v) with h0 | hpos
  · rw [← h0, div_zero]
    norm_num
  · have h1 : dotL u v ≤ norm2 u * norm2 v :=
      le_trans (le_abs_self _) (abs_dotL_le u v)
    have h2 : dotL u v / (norm2 u * norm2 v) ≤ 1 := (div_le_one hpos).2 h1
    linarith

/-- A stored vector that is a positive scalar multiple of the query is at
cosine distance 0 from it, hence at similarity 1. -/
theorem cosineDistance_smul_self (c : ℝ) (v : List ℝ) (hc : 0 < c)
    (hv : 0 < dotL v v) : cosineDistance (smulL c v) v = 0 := by
  unfold cosineDistance norm2
  rw [dotL_smul_left, dotL_smul_left, dotL_smul_right]
  have hsq : Real.sqrt (c * (c * dotL v v)) = c * Real.sqrt (dotL v v) := by
    rw [show c * (c * dotL v v) = c ^ 2 * dotL v v by ring,
      Real.sqrt_mul (sq_nonneg c), Real.sqrt_sq hc.le]
  rw [hsq]
  have hD : Real.sqrt (dotL v v) * Real.sqrt (dotL v v) = dotL v v :=
    Real.mul_self_sqrt hv.le
  rw [show c * Real.sqrt (dotL v v) * Real.sqrt (dotL v v) =
      c * (Real.sqrt (dotL v v) * Real.sqrt (dotL v v)) by ring, hD,
    div_self (ne_of_gt (mul_pos hc hv))]
  ring

/-! ## Lemmas about the similarity queries -/

theorem eligibleRows_mem (store : List ChatMessage) (scope : Option Int)
    (m : ChatMessage) (hm : m ∈ eligibleRows store scope) :
    m ∈ store ∧ m.embedding.isSome := by
  cases scope with
  | none =>
    simp only [eligibleRows] at hm
    exact ⟨(List.mem_filter.1 hm).1, (List.mem_filter.1 hm).2⟩
  | some cid =>
    simp only [eligibleRows] at hm
    by_cases h : cid ≠ 0
    · rw [if_pos h] at hm
      have h1 := (List.mem_filter.1 hm).1
      exact ⟨(List.mem_filter.1 h1).1, (List.mem_filter.1 h1).2⟩
    · rw [if_neg h] at hm
      exact ⟨(List.mem_filter.1 hm).1, (List.mem_filter.1 hm).2⟩

theorem eligibleRows_scope_conv (store : List ChatMessage) (cid : Int) (hcid : cid ≠ 0)
    (m : ChatMessage) (hm : m ∈ eligibleRows store (some cid)) :
    m.conversation_id = cid := by
  simp only [eligibleRows] at hm
  rw [if_pos hcid] at hm
  simpa using (List.mem_filter.1 hm).2

theorem similarity_search_mem (store : List ChatMessage) (q : List ℝ) (top_k : Int)
    (scope : Option Int) (p : ChatMessage × ℝ)
    (hp : p ∈ similarity_search store q top_k scope) :
    ∃ m ∈ eligibleRows store scope, p.1 = m ∧
      p.2 = 1 - cosineDistance (m.embedding.getD []) q := by
  unfold similarity_search at hp
  obtain ⟨x, hx, hfx⟩ := List.mem_map.1 hp
  have hx1 : x ∈ (eligibleRows store scope).map
      (fun m => (m, cosineDistance (m.embedding.getD []) q)) :=
    (List.perm_insertionSort (fun (a b : ChatMessage × ℝ) => a.2 ≤ b.2) _).subset
      (List.mem_of_mem_take hx)
  obtain ⟨m, hm, hxm⟩ := List.mem_map.1 hx1
  subst hfx
  subst hxm
  exact ⟨m, hm, rfl, rfl⟩

theorem similarity_search_sorted (store : List ChatMessage) (q : List ℝ) (top_k : Int)
    (scope : Option Int) :
    (similarity_search store q top_k scope).Sorted (fun a b => b.2 ≤ a.2) := by
  unfold similarity_search
  apply List.Pairwise.map
  · intro a b hab
    exact sub_le_sub_left hab 1
  · exact List.Pairwise.sublist (List.take_sublist _ _)
      (List.sorted_insertionSort (fun (a b : ChatMessage × ℝ) => a.2 ≤ b.2) _)

theorem similarity_search_length (store : List ChatMessage) (q : List ℝ) (top_k : Int)
    (scope : Option Int) :
    (similarity_search store q top_k scope).length =
      min (clampTopK top_k).toNat (eligibleRows store scope).length := by
  unfold similarity_search
  rw [List.length_map, List.length_take, List.length_insertionSort, List.length_map]

theorem query_collection_sorted (docs : List RagDoc) (q : List ℝ) (k : Int)
    (res : List (RagDoc × ℝ)) (h : query_collection docs q k = some res) :
    res.Sorted (fun a b => b.2 ≤ a.2) := by
  unfold query_collection at h
  by_cases hk : k < 0
  · rw [if_pos hk] at h
    exact absurd h (by simp)
  · rw [if_neg hk] at h
    simp only [Option.some_inj] at h
    subst h
    exact List.Pairwise.sublist (List.take_sublist _ _)
      (List.sorted_insertionSort (fun (a b : RagDoc × ℝ) => b.2 ≤ a.2) _)

theorem query_collection_mem (docs : List RagDoc) (q : List ℝ) (k : Int)
    (res : List (RagDoc × ℝ)) (h : query_collection docs q k = some res)
    (p : RagDoc × ℝ) (hp : p ∈ res) :
    p.1 ∈ docs ∧ p.2 = 1 - cosineDistance p.1.embedding q := by
  unfold query_collection at h
  by_cases hk : k < 0
  · rw [if_pos hk] at h
    exact absurd h (by simp)
  · rw [if_neg hk] at h
    simp only [Option.some_inj] at h
    subst h
    have hp1 : p ∈ docs.map (fun d => (d, 1 - cosineDistance d.embedding q)) :=
      (List.perm_insertionSort (fun (a b : RagDoc × ℝ) => b.2 ≤ a.2) _).subset
        (List.mem_of_mem_take hp)
    obtain ⟨d, hd, hdp⟩ := List.mem_map.1 hp1
    subst hdp
    exact ⟨hd, rfl⟩

/-- C3: both similarity engines return their rows in non-increasing
similarity order, each returned score is `1 - cosineDistance(stored
embedding, query)`, every score is at most 1, and a stored vector that is a
positive multiple of the query (identical direction) scores exactly the
maximum 1. -/
theorem search_results_ranked_by_cosine (store : List ChatMessage) (q : List ℝ)
    (top_k : Int) (scope : Option Int) (docs : List RagDoc) (rag_k : Int)
    (res : List (RagDoc × ℝ)) (hres : query_collection docs q rag_k = some res) :
    (similarity_search store q top_k scope).Sorted (fun a b => b.2 ≤ a.2) ∧
    (∀ p ∈ similarity_search store q top_k scope,
      ∃ e, p.1 ∈ store ∧ p.1.embedding = some e ∧ p.2 = 1 - cosineDistance e q) ∧
    (∀ p ∈ similarity_search store q top_k scope, p.2 ≤ 1) ∧
    (∀ p ∈ similarity_search store q top_k scope, ∀ c : ℝ, 0 < c → 0 < dotL q q →
      p.1.embedding = some (smulL c q) → p.2 = 1) ∧
    res.Sorted (fun a b => b.2 ≤ a.2) ∧
    (∀ p ∈ res, p.1 ∈ docs ∧ p.2 = 1 - cosineDistance p.1.embedding q) ∧
    (∀ p ∈ res, p.2 ≤ 1) ∧
    (∀ p ∈ res, ∀ c : ℝ, 0 < c → 0 < dotL q q →
      p.1.embedding = smulL c q → p.2 = 1) := by
  have hmemb : ∀ p ∈ similarity_search store q top_k scope,
      ∃ e, p.1 ∈ store ∧ p.1.embedding = some e ∧ p.2 = 1 - cosineDistance e q := by
    intro p hp
    obtain ⟨m, hm, hp1, hp2⟩ := similarity_search_mem store q top_k scope p hp
    obtain ⟨hstore, hsome⟩ := eligibleRows_mem store scope m hm
    obtain ⟨e, he⟩ := Option.isSome_iff_exists.1 hsome
    refine ⟨e, hp1 ▸ hstore, hp1 ▸ he, ?_⟩
    rw [hp2, he]
    rfl
  refine ⟨similarity_search_sorted store q top_k scope, hmemb, ?_, ?_,
    query_collection_sorted docs q rag_k res hres,
    fun p hp => query_collection_mem docs q rag_k res hres p hp, ?_, ?_⟩
  · intro p hp
    obtain ⟨e, _, _, hp2⟩ := hmemb p hp
    have hnn := cosineDistance_nonneg e q
    rw [hp2]
    linarith
  · intro p hp c hc hq hemb
    obtain ⟨e, _, he, hp2⟩ := hmemb p hp
    rw [he] at hemb
    simp only [Option.some_inj] at hemb
    rw [hp2, hemb, cosineDistance_smul_self c q hc hq]
    ring
  · intro p hp
    have h2 := (query_collection_mem docs q rag_k res hres p hp).2
    have := cosineDistance_nonneg p.1.embedding q
    linarith
  · intro p hp c hc hq hemb
    have h2 := (query_collection_mem docs q rag_k res hres p hp).2
    rw [h2, hemb, cosineDistance_smul_self c q hc hq]
    ring

/-- Witness for C3: one stored history message with embedding `[2]` (twice
the query `[1]`) and one stored document with embedding `[3]`; both engines
return that row with similarity exactly 1. -/
theorem search_results_ranked_by_cosine_witness :
    (0 : ℝ) < 2 ∧ (0 : ℝ) < dotL [(1 : ℝ)] [(1 : ℝ)] ∧
    (similarity_search [⟨1, 1, "u", "m", none, 0, some [(2 : ℝ)]⟩]
        [(1 : ℝ)] 5 none).map Prod.snd = [1] ∧
    (query_collection [⟨1, "d", [(3 : ℝ)]⟩] [(1 : ℝ)] 2).map
      (List.map Prod.snd) = some [1] := by
  have hq : (0 : ℝ) < dotL [(1 : ℝ)] [(1 : ℝ)] := by simp [dotL]
  have hsim : similarity_search [⟨1, 1, "u", "m", none, 0, some [(2 : ℝ)]⟩]
      [(1 : ℝ)] 5 none =
      [(⟨1, 1, "u", "m", none, 0, some [(2 : ℝ)]⟩,
        1 - cosineDistance [(2 : ℝ)] [(1 : ℝ)])] := by
    simp [similarity_search, eligibleRows, clampTopK]
  have hrag : query_collection [⟨1, "d", [(3 : ℝ)]⟩] [(1 : ℝ)] 2 =
      some [(⟨1, "d", [(3 : ℝ)]⟩, 1 - cosineDistance [(3 : ℝ)] [(1 : ℝ)])] := by
    simp [query_collection]
  have hmain := search_results_ranked_by_cosine
    [⟨1, 1, "u", "m", none, 0, some [(2 : ℝ)]⟩] [(1 : ℝ)] 5 none
    [⟨1, "d", [(3 : ℝ)]⟩] 2 _ hrag
  have h4 := hmain.2.2.2.1
    (⟨1, 1, "u", "m", none, 0, some [(2 : ℝ)]⟩, 1 - cosineDistance [(2 : ℝ)] [(1 : ℝ)])
    (by rw [hsim]; exact List.mem_singleton_self _) 2 (by norm_num) hq
    (by simp [smulL])
  have h8 := hmain.2.2.2.2.2.2.2
    (⟨1, "d", [(3 : ℝ)]⟩, 1 - cosineDistance [(3 : ℝ)] [(1 : ℝ)])
    (List.mem_singleton_self _) 3 (by norm_num) hq (by simp [smulL])
  have h4' : 1 - cosineDistance [(2 : ℝ)] [(1 : ℝ)] = 1 := h4
  have h8' : 1 - cosineDistance [(3 : ℝ)] [(1 : ℝ)] = 1 := h8
  refine ⟨by norm_num, hq, ?_, ?_⟩
  · rw [hsim]
    simp only [List.map_cons, List.map_nil]
    rw [h4']
  · rw [hrag]
    simp only [Option.map_some', List.map_cons, List.map_nil]
    rw [h8']

/-- C4 (amended): a similarity search with a nonzero conversation scope only
returns rows of that conversation, and the `top_k` limit applies to the
scope-filtered candidate set (the result length is the clamped `top_k`
capped by the number of in-scope rows with embeddings), not to the global
set.  A scope of 0 is falsy in Python and is treated as no scope — see the
counterexample. -/
theorem scope_filter_restricts (store : List ChatMessage) (q : List ℝ) (top_k : Int)
    (cid : Int) (hcid : cid ≠ 0) :
    (∀ p ∈ similarity_search store q top_k (some cid), p.1.conversation_id = cid) ∧
    (similarity_search store q top_k (some cid)).length =
      min (clampTopK top_k).toNat (eligibleRows store (some cid)).length := by
  refine ⟨?_, similarity_search_length store q top_k (some cid)⟩
  intro p hp
  obtain ⟨m, hm, hp1, _⟩ := similarity_search_mem store q top_k (some cid) p hp
  rw [hp1]
  exact eligibleRows_scope_conv store cid hcid m hm

/-- Witness for C4 at a concrete store with rows in conversations 1 and 2. -/
theorem scope_filter_restricts_witness :
    (1 : Int) ≠ 0 ∧
    (similarity_search [⟨1, 1, "u", "m", none, 0, some [(1 : ℝ)]⟩,
        ⟨2, 2, "u", "m", none, 0, some [(1 : ℝ)]⟩] [(1 : ℝ)] 3 (some 1)).length =
      min (clampTopK 3).toNat
        (eligibleRows [⟨1, 1, "u", "m", none, 0, some [(1 : ℝ)]⟩,
          ⟨2, 2, "u", "m", none, 0, some [(1 : ℝ)]⟩] (some 1)).length :=
  ⟨by decide,
    (scope_filter_restricts [⟨1, 1, "u", "m", none, 0, some [(1 : ℝ)]⟩,
      ⟨2, 2, "u", "m", none, 0, some [(1 : ℝ)]⟩] [(1 : ℝ)] 3 1 (by decide)).2⟩

/-- C4 counterexample for the claim as stated: a search scoped to
conversation 0 (`conversation_id = 0` is falsy in Python, so the
`AND conversation_id = %s` filter is skipped) returns a row of
conversation 1 — a row outside the requested scope. -/
theorem scope_zero_not_filtered :
    ¬ (∀ p ∈ similarity_search [⟨1, 1, "u", "m", none, 0, some [(1 : ℝ)]⟩]
        [(1 : ℝ)] 1 (some 0), p.1.conversation_id = 0) := by
  intro hall
  have hres : similarity_search [⟨1, 1, "u", "m", none, 0, some [(1 : ℝ)]⟩]
      [(1 : ℝ)] 1 (some 0) =
      [(⟨1, 1, "u", "m", none, 0, some [(1 : ℝ)]⟩,
        1 - cosineDistance [(1 : ℝ)] [(1 : ℝ)])] := by
    simp [similarity_search, eligibleRows, clampTopK]
  have h1 := hall (⟨1, 1, "u", "m", none, 0, some [(1 : ℝ)]⟩,
    1 - cosineDistance [(1 : ℝ)] [(1 : ℝ)])
    (by rw [hres]; exact List.mem_singleton_self _)
  simp at h1

/-- C5 (amended): the history similarity search clamps `top_k` into
`[1, 100]` — the search behaves exactly as with the clamped value, and the
result length is that clamp capped by the candidate count.  The RAG
`query_collection` applies no clamp at all: `top_k` is passed straight to
`LIMIT` — see the counterexample. -/
theorem history_top_k_clamped (store : List ChatMessage) (q : List ℝ) (top_k : Int)
    (scope : Option Int) :
    similarity_search store q top_k scope =
      similarity_search store q (max 1 (min top_k 100)) scope ∧
    (similarity_search store q top_k scope).length =
      min (max 1 (min top_k 100)).toNat (eligibleRows store scope).length := by
  have hcl : clampTopK (max 1 (min top_k 100)) = clampTopK top_k := by
    unfold clampTopK
    omega
  constructor
  · unfold similarity_search
    rw [hcl]
  · exact similarity_search_length store q top_k scope

/-- C5 counterexample for the claim as stated: the RAG `query_collection`
(rag.py lines 355-381) does not clamp `top_k` into `[1, 100]`: with one
stored document, `top_k = 0` returns zero rows where the claimed behaviour
(`top_k` below 1 acts as 1) would return one, as `top_k = 1` does. -/
theorem rag_top_k_not_clamped :
    query_collection [⟨1, "d", [(1 : ℝ)]⟩] [(1 : ℝ)] 0 = some [] ∧
    (query_collection [⟨1, "d", [(1 : ℝ)]⟩] [(1 : ℝ)] 1).map List.length = some 1 := by
  constructor
  · simp [query_collection]
  · simp [query_collection]

/-! ## Transactional properties of the write paths -/

theorem ingestInsertLoop_ok_contents (encode : String → Except String (List ℝ))
    (insertRow : String → List ℝ → Except String Int) :
    ∀ (chunks : List String) (rows : List RagDoc),
      ingestInsertLoop encode insertRow chunks = .ok rows →
      rows.map RagDoc.content = chunks := by
  intro chunks
  induction chunks with
  | nil =>
    intro rows h
    simp only [ingestInsertLoop] at h
    cases h
    rfl
  | cons ch rest ih =>
    intro rows h
    simp only [ingestInsertLoop] at h
    split at h
    · exact absurd h (by simp)
    · split at h
      · exact absurd h (by simp)
      · split at h
        · exact absurd h (by simp)
        · rename_i ds hds
          cases h
          simp only [List.map_cons]
          rw [ih ds hds]

/-- C6: the per-chunk insert loop of `ingest_file` commits all or nothing:
if embedding generation or row insertion fails on any chunk, the committed
table is exactly the original one (no chunk row is persisted) and the error
is surfaced; if every chunk succeeds, the committed table is the original
plus one row per chunk, in order. -/
theorem ingest_insert_atomic (encode : String → Except String (List ℝ))
    (insertRow : String → List ℝ → Except String Int)
    (table : List RagDoc) (chunks : List String) :
    ((ingest_file_insert encode insertRow table chunks).2 = none →
      ∃ rows, (ingest_file_insert encode insertRow table chunks).1 = table ++ rows ∧
        rows.map RagDoc.content = chunks) ∧
    (∀ e, (ingest_file_insert encode insertRow table chunks).2 = some e →
      (ingest_file_insert encode insertRow table chunks).1 = table) := by
  unfold ingest_file_insert
  cases h : ingestInsertLoop encode insertRow chunks with
  | ok rows =>
    refine ⟨fun _ => ⟨rows, rfl, ingestInsertLoop_ok_contents encode insertRow chunks rows h⟩,
      fun e he => ?_⟩
    simp at he
  | error e =>
    refine ⟨fun hnone => ?_, fun e' _ => rfl⟩
    simp at hnone

/-- Witness for C6: the model fails on the second chunk; the committed table
is unchanged and the error is surfaced. -/
theorem ingest_insert_atomic_witness :
    (ingest_file_insert (fun s => if s == "b" then .error "model down" else .ok [(1 : ℝ)])
        (fun _ _ => .ok 5) [⟨1, "x", [(1 : ℝ)]⟩] ["a", "b"]).2 = some "model down" ∧
    (ingest_file_insert (fun s => if s == "b" then .error "model down" else .ok [(1 : ℝ)])
        (fun _ _ => .ok 5) [⟨1, "x", [(1 : ℝ)]⟩] ["a", "b"]).1 = [⟨1, "x", [(1 : ℝ)]⟩] :=
  ⟨rfl, (ingest_insert_atomic (fun s => if s == "b" then .error "model down" else .ok [(1 : ℝ)])
    (fun _ _ => .ok 5) [⟨1, "x", [(1 : ℝ)]⟩] ["a", "b"]).2 "model down" rfl⟩

/-- C7: `update_document` on an existing collection and an id present in it
replaces the row's content and embedding together (the embedding freshly
encoded from the new content), keeps the row's id and every other row and
every other collection unchanged, and returns the same document id; an
absent collection or an absent document id yields the 404 errors. -/
theorem update_document_spec (encode : String → Except String (List ℝ))
    (db : List (String × List RagDoc)) (name : String) (doc_id : Int)
    (content : String) (emb : List ℝ) (henc : encode content = .ok emb) :
    (lookupTable db (normalizeName name) = none →
      update_document encode db name doc_id content =
        .error ⟨404, "Collection not found."⟩) ∧
    (∀ rows, lookupTable db (normalizeName name) = some rows →
      (rows.any (fun d => d.id == doc_id) = false →
        update_document encode db name doc_id content =
          .error ⟨404, "Document not found."⟩) ∧
      (rows.any (fun d => d.id == doc_id) = true →
        ∃ db', update_document encode db name doc_id content = .ok (db', doc_id) ∧
          lookupTable db' (normalizeName name) =
            some (rows.map (fun d =>
              if d.id == doc_id then ⟨d.id, content, emb⟩ else d)) ∧
          (∀ tbl, tbl ≠ normalizeName name →
            lookupTable db' tbl = lookupTable db tbl) ∧
          (rows.map (fun d =>
              if d.id == doc_id then (⟨d.id, content, emb⟩ : RagDoc) else d)).map
            RagDoc.id = rows.map RagDoc.id)) := by
  constructor
  · intro hnone
    simp only [update_document]
    rw [hnone]
  · intro rows hrows
    constructor
    · intro habs
      simp only [update_document]
      rw [hrows, henc]
      have hne : ¬(rows.any fun d => d.id == doc_id) = true := by
        rw [habs]
        simp
      exact if_neg hne
    · intro hpres
      refine ⟨db.map (fun p =>
        if p.1 == normalizeName name then
          (p.1, p.2.map (fun d => if d.id == doc_id then ⟨d.id, content, emb⟩ else d))
        else p), ?_, ?_, ?_, ?_⟩
      · simp only [update_document]
        rw [hrows, henc]
        exact if_pos hpres
      · unfold lookupTable at hrows ⊢
        rw [List.find?_map]
        have hpred : ((fun p => p.1 == normalizeName name) ∘ (fun (p : String × List RagDoc) =>
            if p.1 == normalizeName name then
              (p.1, p.2.map (fun d => if d.id == doc_id then ⟨d.id, content, emb⟩ else d))
            else p)) = (fun p => p.1 == normalizeName name) := by
          funext p
          by_cases hp : p.1 = normalizeName name
          · simp [hp]
          · simp [hp]
        rw [hpred]
        cases hf : db.find? (fun p => p.1 == normalizeName name) with
        | none => rw [hf] at hrows; exact absurd hrows (by simp)
        | some p0 =>
          rw [hf] at hrows
          simp only [Option.map_some', Option.some_inj] at hrows
          have hp0 := List.find?_some hf
          simp only [Option.map_some']
          simp [hp0, hrows]
      · intro tbl htbl
        unfold lookupTable
        rw [List.find?_map]
        have hpred : ((fun p => p.1 == tbl) ∘ (fun (p : String × List RagDoc) =>
            if p.1 == normalizeName name then
              (p.1, p.2.map (fun d => if d.id == doc_id then ⟨d.id, content, emb⟩ else d))
            else p)) = (fun p => p.1 == tbl) := by
          funext p
          by_cases hp : p.1 = normalizeName name
          · simp [hp]
          · simp [hp]
        rw [hpred]
        cases hf : db.find? (fun p => p.1 == tbl) with
        | none => rfl
        | some p0 =>
          have hteq : p0.1 = tbl := by simpa using List.find?_some hf
          simp [hteq, htbl]
      · rw [List.map_map]
        apply List.map_congr_left
        intro d _
        by_cases hd : d.id = doc_id
        · simp [hd]
        · simp [hd]

/-- Witness for C7 at a concrete two-collection store. -/
theorem update_document_spec_witness :
    ((fun _ : String => (.ok [(9 : ℝ)] : Except String (List ℝ))) "new" = .ok [(9 : ℝ)]) ∧
    lookupTable [("notes", [⟨1, "old", [(1 : ℝ)]⟩]), ("other", [⟨1, "keep", [(2 : ℝ)]⟩])]
      (normalizeName "Notes") = some [⟨1, "old", [(1 : ℝ)]⟩] ∧
    ([⟨1, "old", [(1 : ℝ)]⟩] : List RagDoc).any (fun d => d.id == 1) = true ∧
    ∃ db', update_document (fun _ => .ok [(9 : ℝ)])
        [("notes", [⟨1, "old", [(1 : ℝ)]⟩]), ("other", [⟨1, "keep", [(2 : ℝ)]⟩])]
        "Notes" 1 "new" = .ok (db', 1) ∧
      lookupTable db' (normalizeName "Notes") =
        some (([⟨1, "old", [(1 : ℝ)]⟩] : List RagDoc).map (fun d =>
          if d.id == 1 then ⟨d.id, "new", [(9 : ℝ)]⟩ else d)) ∧
      (∀ tbl, tbl ≠ normalizeName "Notes" →
        lookupTable db' tbl =
          lookupTable [("notes", [⟨1, "old", [(1 : ℝ)]⟩]),
            ("other", [⟨1, "keep", [(2 : ℝ)]⟩])] tbl) ∧
      (([⟨1, "old", [(1 : ℝ)]⟩] : List RagDoc).map (fun d =>
          if d.id == 1 then (⟨d.id, "new", [(9 : ℝ)]⟩ : RagDoc) else d)).map
        RagDoc.id = ([⟨1, "old", [(1 : ℝ)]⟩] : List RagDoc).map RagDoc.id :=
  ⟨rfl, rfl, rfl,
    ((update_document_spec (fun _ => .ok [(9 : ℝ)])
      [("notes", [⟨1, "old", [(1 : ℝ)]⟩]), ("other", [⟨1, "keep", [(2 : ℝ)]⟩])]
      "Notes" 1 "new" [(9 : ℝ)] rfl).2 [⟨1, "old", [(1 : ℝ)]⟩] rfl).2 rfl⟩

/-- C8: deleting a conversation removes the conversation row and every one
of its messages in one transaction, leaving all other rows untouched; an
absent conversation id yields 404 `Conversation not found` and leaves the
whole store unchanged — in particular no `chat_messages` row is deleted,
because the transaction (which deleted messages first) is rolled back. -/
theorem delete_conversation_spec (db : HistoryDB) (conv_id : Int) :
    ((∃ c ∈ db.conversations, c.id = conv_id) →
      (delete_conversation db conv_id).2 = .ok conv_id ∧
      (∀ c ∈ (delete_conversation db conv_id).1.conversations, c.id ≠ conv_id) ∧
      (∀ m ∈ (delete_conversation db conv_id).1.chat_messages,
        m.conversation_id ≠ conv_id) ∧
      (∀ c ∈ db.conversations, c.id ≠ conv_id →
        c ∈ (delete_conversation db conv_id).1.conversations) ∧
      (∀ m ∈ db.chat_messages, m.conversation_id ≠ conv_id →
        m ∈ (delete_conversation db conv_id).1.chat_messages)) ∧
    ((¬ ∃ c ∈ db.conversations, c.id = conv_id) →
      delete_conversation db conv_id = (db, .error ⟨404, "Conversation not found"⟩)) := by
  constructor
  · intro hex
    have hany : db.conversations.any (fun c => c.id == conv_id) = true := by
      obtain ⟨c, hc, hcid⟩ := hex
      exact List.any_eq_true.2 ⟨c, hc, by simpa using hcid⟩
    unfold delete_conversation
    rw [if_pos hany]
    refine ⟨rfl, ?_, ?_, ?_, ?_⟩
    · intro c hc
      have := (List.mem_filter.1 hc).2
      simpa using this
    · intro m hm
      have := (List.mem_filter.1 hm).2
      simpa using this
    · intro c hc hne
      exact List.mem_filter.2 ⟨hc, by simpa using hne⟩
    · intro m hm hne
      exact List.mem_filter.2 ⟨hm, by simpa using hne⟩
  · intro hnex
    have hany : db.conversations.any (fun c => c.id == conv_id) = false := by
      rw [Bool.eq_false_iff]
      intro hany
      obtain ⟨c, hc, hcid⟩ := List.any_eq_true.1 hany
      exact hnex ⟨c, hc, by simpa using hcid⟩
    unfold delete_conversation
    rw [if_neg (by rw [hany]; simp)]

/-- Witness for C8: a store holding conversation 5 with one message; the
delete reports success. -/
theorem delete_conversation_spec_witness :
    (∃ c ∈ ([⟨5, 0, "t"⟩] : List Conversation), c.id = 5) ∧
    (delete_conversation ⟨[⟨5, 0, "t"⟩], [⟨1, 5, "u", "hello", none, 0, none⟩]⟩ 5).2 =
      .ok 5 :=
  ⟨⟨⟨5, 0, "t"⟩, List.mem_singleton_self _, rfl⟩,
    ((delete_conversation_spec ⟨[⟨5, 0, "t"⟩], [⟨1, 5, "u", "hello", none, 0, none⟩]⟩ 5).1
      ⟨⟨5, 0, "t"⟩, List.mem_singleton_self _, rfl⟩).1⟩

/-- C9: the concrete bulk-delete scenario of the spec.  With conversations
1 and 2 stored (each with one message) and 999 absent, deleting [1, 2, 999]
returns deleted = [1, 2], not_found = [999] and empties the store; an
identical second request returns deleted = [] and not_found = [1, 2, 999]. -/
theorem bulk_delete_scenario :
    bulk_delete_conversations
      ⟨[⟨1, 0, "a"⟩, ⟨2, 0, "b"⟩],
       [⟨10, 1, "u", "x", none, 0, none⟩, ⟨11, 2, "u", "y", none, 0, none⟩]⟩
      [1, 2, 999] = (⟨[], []⟩, [1, 2], [999]) ∧
    bulk_delete_conversations (⟨[], []⟩ : HistoryDB) [1, 2, 999] =
      (⟨[], []⟩, [], [1, 2, 999]) := by
  exact ⟨rfl, rfl⟩

/-- C10: `get_conversation_details` reports 404 `Conversation not found`
exactly when the conversation has zero `chat_messages` rows — existence is
decided by counting messages, so the 404 is returned even when the
`conversations` row itself exists. -/
theorem conversation_details_404_on_zero_messages (db : HistoryDB) (conv_id : Int) :
    (get_conversation_details db conv_id = .error ⟨404, "Conversation not found"⟩ ↔
      db.chat_messages.filter (fun m => m.conversation_id == conv_id) = []) ∧
    ((∃ c ∈ db.conversations, c.id = conv_id) →
      db.chat_messages.filter (fun m => m.conversation_id == conv_id) = [] →
      get_conversation_details db conv_id = .error ⟨404, "Conversation not found"⟩) := by
  have hmain : get_conversation_details db conv_id =
      .error ⟨404, "Conversation not found"⟩ ↔
      db.chat_messages.filter (fun m => m.conversation_id == conv_id) = [] := by
    unfold get_conversation_details
    constructor
    · intro h
      by_cases hz : (db.chat_messages.filter (fun m => m.conversation_id == conv_id)).length = 0
      · exact List.length_eq_zero.1 hz
      · rw [if_neg hz] at h
        exact absurd h (by simp)
    · intro h
      rw [if_pos (by rw [h]; rfl)]
  exact ⟨hmain, fun _ hz => hmain.2 hz⟩

/-- Witness for C10: conversation 7 exists in `conversations` but has no
messages; retrieving its details still answers 404. -/
theorem conversation_details_404_witness :
    (∃ c ∈ ([⟨7, 0, "t"⟩] : List Conversation), c.id = 7) ∧
    (⟨[⟨7, 0, "t"⟩], []⟩ : HistoryDB).chat_messages.filter
      (fun m => m.conversation_id == 7) = [] ∧
    get_conversation_details (⟨[⟨7, 0, "t"⟩], []⟩ : HistoryDB) 7 =
      .error ⟨404, "Conversation not found"⟩ :=
  ⟨⟨⟨7, 0, "t"⟩, List.mem_singleton_self _, rfl⟩, rfl,
    (conversation_details_404_on_zero_messages (⟨[⟨7, 0, "t"⟩], []⟩ : HistoryDB) 7).2
      ⟨⟨7, 0, "t"⟩, List.mem_singleton_self _, rfl⟩ rfl⟩

end Olympus
